import Mathlib

/-!
Verification of the intelligent document processing system.

The repository ships only the React front-end (DocumentUpload, DocumentViewer,
ProcessingDashboard, Layout).  The core pipeline (ImagePreprocessor,
RegionDetector, OCREngine, FieldExtractor, PipelineOrchestrator) is described
by the specification but its code is not in the source tree, so it is modelled
here from the specification text; every such definition carries a doc comment
starting with "Modelled from the spec:".  Confidences are represented as
natural-number percentages (0–100) standing for the spec's [0,1] scale.
-/

/-- Modelled from the spec: status of a whole-document run,
`Success | PartialSuccess | Failed` (§3 ProcessingResult). -/
inductive Status where
  | Success
  | PartialSuccess
  | Failed
deriving DecidableEq, Repr

/-- Modelled from the spec: kind of a detected region (§3 Region). -/
inductive RegionKind where
  | text
  | table
  | figure
  | unknown
deriving DecidableEq, Repr

/-- Modelled from the spec: an axis-aligned bounding rectangle with
top-left corner `(x, y)`, width `w` and height `h` in pixels. -/
structure Rect where
  x : Nat
  y : Nat
  w : Nat
  h : Nat
deriving DecidableEq, Repr

/-- Modelled from the spec: a decoded grayscale image — a pixel buffer
as rows of gray values, plus width and height (§3 Image). -/
structure Image where
  width : Nat
  height : Nat
  pixels : List (List Nat)
deriving DecidableEq, Repr

/-- Modelled from the spec: a detected region
`(id, bounding polygon, kind, sourceImageId)` (§3 Region). -/
structure Region where
  id : Nat
  box : Rect
  kind : RegionKind
  sourceImageId : Nat
deriving DecidableEq, Repr

/-- Modelled from the spec: a unit of recognized text with a confidence
score (percent) and bounding box, tagged with its region (§3 OcrToken). -/
structure OcrToken where
  text : String
  confidence : Nat
  boundingBox : Rect
  regionId : Nat
deriving DecidableEq, Repr

/-- Modelled from the spec: the typed value carried by an extracted field
(§3 ExtractedField). -/
inductive TypedValue where
  | str (s : String)
  | date (s : String)
  | number (n : Nat)
  | measurement (value : Nat) (unit : String)
  | tableRow (cells : List String)
deriving DecidableEq, Repr

/-- Modelled from the spec: a named, typed field extracted from a region
(§3 ExtractedField). -/
structure ExtractedField where
  name : String
  rawText : String
  typedValue : TypedValue
  confidence : Nat
  sourceRegionId : Nat
deriving DecidableEq, Repr

/-- Modelled from the spec: the aggregate result of one pipeline run
(§3 ProcessingResult). -/
structure ProcessingResult where
  documentId : Nat
  regions : List Region
  fields : List ExtractedField
  overallStatus : Status
  warnings : List String
deriving DecidableEq, Repr

/-- Modelled from the spec: pipeline configuration (§4.1, §6): preprocessing
options plus orchestrator options.  Confidence thresholds are percentages. -/
structure Config where
  denoiseStrength : Nat
  deskewEnabled : Bool
  binarizationThreshold : Nat
  enginePreferenceOrder : List Nat
  minFieldConfidence : Nat
  minEngineConfidence : Nat
  maxRegionParallelism : Nat
  documentTimeoutMs : Nat
deriving Repr

/-- Modelled from the spec: an OCR engine backend is a capability
`recognize(regionImage) -> sequence of OcrToken`; `none` models
`EngineUnavailable` (§4.3, §6). -/
def OCREngine : Type := Image → Option (List OcrToken)

/-- A decoded image is well formed when its pixel buffer agrees with the
declared dimensions; otherwise the loader output is treated as
`UnsupportedFormat` (§4.1). -/
def wellFormed (img : Image) : Bool :=
  img.pixels.length == img.height &&
    img.pixels.all (fun row => row.length == img.width)

/-- Modelled from the spec: errors of the preprocessing stage (§4.1). -/
inductive PreprocessError where
  | UnsupportedFormat
  | EmptyImage
deriving DecidableEq, Repr

/-- Grayscale normalization: clamp every gray value into 0–255 (§4.1). -/
def grayscaleNormalize (img : Image) : Image :=
  { img with pixels := img.pixels.map (fun row => row.map (fun p => min p 255)) }

/-- Noise reduction: gray values darker than the configured strength are
treated as speckle and forced to pure black, light speckle above 255 minus
the strength is forced to white (§4.1 denoiseStrength). -/
def denoise (strength : Nat) (img : Image) : Image :=
  { img with pixels := img.pixels.map (fun row => row.map (fun p =>
      if p < strength then 0 else if 255 - strength < p then 255 else p)) }

/-- Average column index of the dark pixels of a row, if any are dark. -/
def rowDarkCentroid (thr : Nat) (row : List Nat) : Option Nat :=
  let darkCols := (row.enum.filter (fun cp => cp.2 < thr)).map (fun cp => cp.1)
  if darkCols.isEmpty then none else some (darkCols.sum / darkCols.length)

/-- Shift one row horizontally by a signed amount, padding with white. -/
def shiftRow (width : Nat) (s : Int) (row : List Nat) : List Nat :=
  if 0 ≤ s then
    (List.replicate s.toNat 255 ++ row).take width
  else
    row.drop (-s).toNat ++ List.replicate (min (-s).toNat width) 255

/-- Deskew: estimate the dominant text-line slope from the dark-pixel
centroids of the first and last inked rows and shear every row against it
(§4.1 rotation correction via detected dominant text-line angle). -/
def deskew (thr : Nat) (img : Image) : Image :=
  let centroids := img.pixels.filterMap (rowDarkCentroid thr)
  match centroids.head?, centroids.getLast? with
  | some cTop, some cBot =>
    if img.height ≤ 1 then img else
      let slopeNum : Int := (cBot : Int) - (cTop : Int)
      { img with pixels := img.pixels.enum.map (fun ir =>
          shiftRow img.width (-(slopeNum * ir.1) / (img.height - 1)) ir.2) }
  | _, _ => img

/-- Binarization: gray values below the threshold become black (0), the
rest white (255) (§4.1 contrast/binarization adjustment). -/
def binarize (thr : Nat) (img : Image) : Image :=
  { img with pixels := img.pixels.map (fun row => row.map (fun p =>
      if p < thr then 0 else 255)) }

/-- Modelled from the spec: `preprocess(image) -> canonicalImage` (§4.1) —
in fixed order grayscale normalization, noise reduction, optional deskew,
binarization; `UnsupportedFormat` if the buffer cannot be decoded,
`EmptyImage` on zero dimensions.  Pure in the image and the configuration. -/
def preprocess (img : Image) (cfg : Config) : Except PreprocessError Image :=
  if ¬ wellFormed img then .error .UnsupportedFormat
  else if img.width == 0 || img.height == 0 then .error .EmptyImage
  else
    let g := grayscaleNormalize img
    let d := denoise cfg.denoiseStrength g
    let k := if cfg.deskewEnabled then deskew cfg.binarizationThreshold d else d
    .ok (binarize cfg.binarizationThreshold k)

/-- A binarized pixel is dark (ink) when its value is zero. -/
def rowHasDark (row : List Nat) : Bool := row.any (fun p => p == 0)

/-- Column indices of the dark pixels of a binarized row. -/
def darkCols (row : List Nat) : List Nat :=
  (row.enum.filter (fun cp => cp.2 == 0)).map (fun cp => cp.1)

/-- Group the enumerated rows that contain ink into maximal bands of
consecutive row indices (connected-component analysis along the vertical
projection profile, §4.2). -/
def bands : List (Nat × List Nat) → List (List (Nat × List Nat))
  | [] => []
  | r :: rest =>
    let grouped := bands rest
    if rowHasDark r.2 then
      match grouped with
      | ((i, row) :: b) :: bs =>
        if i == r.1 + 1 then ((r :: (i, row) :: b)) :: bs
        else [r] :: grouped
      | [] :: bs => [r] :: bs
      | [] => [[r]]
    else grouped

/-- Bounding rectangle of one band: the extent of its dark pixels. -/
def bandRect (wdt hgt : Nat) (b : List (Nat × List Nat)) : Option Rect :=
  let ys := b.map (fun r => r.1)
  let cols := (b.map (fun r => darkCols r.2)).flatten
  if cols.isEmpty || ys.isEmpty then none
  else
    let x0 := cols.foldr min wdt
    let x1 := cols.foldr max 0
    let y0 := ys.foldr min hgt
    let y1 := ys.foldr max 0
    some ⟨x0, y0, x1 + 1 - x0, y1 + 1 - y0⟩

/-- Modelled from the spec: area threshold suppressing noise candidates (§4.2). -/
def minRegionArea : Nat := 2

/-- Modelled from the spec: aspect-ratio threshold suppressing noise (§4.2). -/
def maxAspectRatio : Nat := 60

/-- Candidate filter by area and aspect-ratio thresholds (§4.2). -/
def keepCandidate (r : Rect) : Bool :=
  decide (minRegionArea ≤ r.w * r.h) &&
    decide (r.w ≤ maxAspectRatio * r.h) && decide (r.h ≤ maxAspectRatio * r.w)

/-- Length of the overlap of two 1-dimensional intervals. -/
def interLen (a aw b bw : Nat) : Nat := min (a + aw) (b + bw) - max a b

/-- Area of the intersection of two rectangles. -/
def interArea (r s : Rect) : Nat :=
  interLen r.x r.w s.x s.w * interLen r.y r.h s.y s.h

/-- Modelled from the spec: merge threshold, as a percentage of the smaller
area, beyond which two candidate regions are merged (§4.2). -/
def mergeThresholdPct : Nat := 30

/-- Two rectangles overlap beyond the merge threshold when their
intersection area exceeds the threshold fraction of the smaller area. -/
def overlapBeyond (r s : Rect) : Bool :=
  decide (mergeThresholdPct * min (r.w * r.h) (s.w * s.h) < 100 * interArea r s)

/-- Union bounding box of two rectangles (the merge tie-break keeps the
union bounding box, §4.2). -/
def rectUnion (r s : Rect) : Rect :=
  let x0 := min r.x s.x
  let y0 := min r.y s.y
  ⟨x0, y0, max (r.x + r.w) (s.x + s.w) - x0, max (r.y + r.h) (s.y + s.h) - y0⟩

/-- One deduplication step: merge the first pair of candidates whose
overlap ratio exceeds the threshold; `none` when no pair overlaps. -/
def mergeStep : List Rect → Option (List Rect)
  | [] => none
  | r :: rest =>
    match rest.find? (fun s => overlapBeyond r s) with
    | some s => some (rectUnion r s :: rest.erase s)
    | none => (mergeStep rest).map (fun rest2 => r :: rest2)

/-- Modelled from the spec: the deduplication pass — repeat single merge
steps until no two candidates overlap beyond the threshold (§4.2).  Each
step shrinks the list by one, so the list length is enough fuel. -/
def mergeAll : Nat → List Rect → List Rect
  | 0, rs => rs
  | fuel + 1, rs =>
    match mergeStep rs with
    | none => rs
    | some rs2 => mergeAll fuel rs2

/-- Dark-pixel count of an image inside a rectangle. -/
def rectDarkCount (canon : Image) (r : Rect) : Nat :=
  (((canon.pixels.drop r.y).take r.h).map
    (fun row => ((row.drop r.x).take r.w).countP (fun p => p == 0))).sum

/-- Number of full-width dark rows (grid rules) inside a rectangle. -/
def gridRuleRows (canon : Image) (r : Rect) : Nat :=
  ((canon.pixels.drop r.y).take r.h).countP
    (fun row => !((row.drop r.x).take r.w).isEmpty &&
      ((row.drop r.x).take r.w).all (fun p => p == 0))

/-- Modelled from the spec: heuristic region-kind classification, applied
strictly after the merge pass (§4.2, §9): near-solid ink is a figure,
two or more grid rules make a table, else text. -/
def classify (canon : Image) (r : Rect) : RegionKind :=
  if r.w * r.h == 0 then .unknown
  else if decide (9 * (r.w * r.h) ≤ 10 * rectDarkCount canon r) then .figure
  else if decide (2 ≤ gridRuleRows canon r) then .table
  else .text

/-- Reading order on rectangles: top-to-bottom, then left-to-right (§3). -/
def readingOrder (a b : Rect) : Prop :=
  a.y < b.y ∨ (a.y = b.y ∧ a.x ≤ b.x)

instance : DecidableRel readingOrder := fun a b => by
  unfold readingOrder; infer_instance

/-- Modelled from the spec: `detect(canonicalImage)` region rectangles —
band candidates, area/aspect filtering, overlap merging, canonical
reading-order sort (§4.2). -/
def detectRects (canon : Image) : List Rect :=
  let cands := (bands canon.pixels.enum).filterMap (bandRect canon.width canon.height)
  let kept := cands.filter keepCandidate
  (mergeAll kept.length kept).insertionSort readingOrder

/-- Modelled from the spec: the full detector output — ordered regions
with ids assigned in reading order and kinds classified after the merge
pass (§4.2). -/
def detect (docId : Nat) (canon : Image) : List Region :=
  (detectRects canon).enum.map (fun ib =>
    { id := ib.1, box := ib.2, kind := classify canon ib.2, sourceImageId := docId })

/-- Crop an image to a rectangle (the per-region image handed to OCR). -/
def crop (img : Image) (r : Rect) : Image :=
  { width := r.w, height := r.h,
    pixels := ((img.pixels.drop r.y).take r.h).map (fun row => (row.drop r.x).take r.w) }

/-- Modelled from the spec: outcome of the per-region OCR fallback chain —
either every engine was unavailable, or a token sequence was accepted. -/
inductive OcrOutcome where
  | unavailable
  | accepted (tokens : List OcrToken)
deriving DecidableEq, Repr

/-- Sum of the token confidences (percent). -/
def sumConf (toks : List OcrToken) : Nat := (toks.map (fun t => t.confidence)).sum

/-- Modelled from the spec: a token sequence is acceptable when it is
nonempty and its average confidence reaches `minEngineConfidence` (§4.3);
the average comparison is cross-multiplied to stay in integers. -/
def acceptableTokens (cfg : Config) (toks : List OcrToken) : Bool :=
  !toks.isEmpty && decide (cfg.minEngineConfidence * toks.length ≤ sumConf toks)

/-- Modelled from the spec: the per-region fallback chain (§4.3, §9):
attempt engine i, evaluate confidence, advance.  An unavailable engine
(`none`) is skipped; an unacceptable result is kept only if every later
chain member fails to produce an acceptable one.  Returns the outcome and
the number of engine attempts made. -/
def runChain (cfg : Config) (regionImg : Image) : List OCREngine → OcrOutcome × Nat
  | [] => (.unavailable, 0)
  | e :: rest =>
    match e regionImg with
    | none =>
      let r := runChain cfg regionImg rest
      (r.1, r.2 + 1)
    | some toks =>
      if acceptableTokens cfg toks then (.accepted toks, 1)
      else
        match runChain cfg regionImg rest with
        | (.accepted toks2, n) => (.accepted toks2, n + 1)
        | (.unavailable, n) => (.accepted toks, n + 1)

/-- Modelled from the spec: the engine chain is selected from the external
registry by the configuration's preference order (§4.3, §6). -/
def chainOf (engines : List OCREngine) (cfg : Config) : List OCREngine :=
  cfg.enginePreferenceOrder.filterMap (fun i => engines.get? i)

/-- One character list begins with another. -/
def charsStart : List Char → List Char → Bool
  | [], _ => true
  | _ :: _, [] => false
  | c :: cs, d :: ds => c == d && charsStart cs ds

/-- Split a character list on a separator character. -/
def splitChars (sep : Char) : List Char → List (List Char)
  | [] => [[]]
  | c :: rest =>
    let r := splitChars sep rest
    if c == sep then [] :: r
    else
      match r with
      | h :: t => (c :: h) :: t
      | [] => [[c]]

/-- Decimal value of a digit list. -/
def charsToNat (cs : List Char) : Nat :=
  cs.foldl (fun acc c => acc * 10 + (c.toNat - 48)) 0

/-- Join strings with single spaces. -/
def joinChars : List String → List Char
  | [] => []
  | [s] => s.toList
  | s :: rest => s.toList ++ ' ' :: joinChars rest

/-- A nonempty list of decimal digits. -/
def isNatChars (cs : List Char) : Bool :=
  !cs.isEmpty && cs.all (fun c => c.isDigit)

/-- A string of decimal digits only (nonempty). -/
def isNatString (s : String) : Bool := isNatChars s.toList

/-- A `YYYY-MM-DD` shaped date string. -/
def isDateString (s : String) : Bool :=
  match s.toList with
  | [a, b, c, d, h1, e, f, h2, g, k] =>
    [a, b, c, d, e, f, g, k].all (fun ch => ch.isDigit) && h1 == '-' && h2 == '-'
  | _ => false

/-- Units recognized by the measurement extraction rule (§4.4). -/
def measurementUnits : List String := ["mm", "cm", "m", "kg", "g"]

/-- Modelled from the spec: the named extraction rules of the
FieldExtractor for text regions (§4.4) — serial identifiers, dates,
measurement expressions (numeric value + unit token), bare numbers.  The
rules are tried most-specific first and at most one fires per token, which
realizes the explicit non-overlap ambiguity policy.  Field names come from
the closed vocabulary of §3. -/
def tokenCandidates (rid : Nat) (t : OcrToken) : List ExtractedField :=
  if charsStart "Serial: ".toList t.text.toList then
    [{ name := "serial_id", rawText := t.text,
       typedValue := .str (String.mk (t.text.toList.drop 8)),
       confidence := t.confidence, sourceRegionId := rid }]
  else if isDateString t.text then
    [{ name := "document_date", rawText := t.text, typedValue := .date t.text,
       confidence := t.confidence, sourceRegionId := rid }]
  else
    match splitChars ' ' t.text.toList with
    | [n, u] =>
      if isNatChars n && (measurementUnits.map (fun m => m.toList)).contains u then
        [{ name := "measurement", rawText := t.text,
           typedValue := .measurement (charsToNat n) (String.mk u),
           confidence := t.confidence, sourceRegionId := rid }]
      else []
    | [n] =>
      if isNatChars n then
        [{ name := "number", rawText := t.text, typedValue := .number (charsToNat n),
           confidence := t.confidence, sourceRegionId := rid }]
      else []
    | _ => []

/-- Row order on tokens: by the y coordinate of the bounding box. -/
def tokenRowOrder (a b : OcrToken) : Prop := a.boundingBox.y ≤ b.boundingBox.y

instance : DecidableRel tokenRowOrder := fun a b => by
  unfold tokenRowOrder; infer_instance

/-- Column order on tokens: by the x coordinate of the bounding box. -/
def tokenColOrder (a b : OcrToken) : Prop := a.boundingBox.x ≤ b.boundingBox.x

instance : DecidableRel tokenColOrder := fun a b => by
  unfold tokenColOrder; infer_instance

/-- Modelled from the spec: split a table region's tokens into rows by the
detected row geometry — tokens sharing a bounding-box y coordinate form one
row, rows ordered top to bottom (§4.4). -/
def tokenRows (toks : List OcrToken) : List (List OcrToken) :=
  let ys := ((toks.map (fun t => t.boundingBox.y)).dedup).insertionSort (· ≤ ·)
  ys.map (fun y => toks.filter (fun t => t.boundingBox.y == y))

/-- Modelled from the spec: one `tableRow`-typed field per table row, with
cell values in column order; the row confidence is the least cell
confidence (§4.4). -/
def tableRowFields (rid : Nat) (toks : List OcrToken) : List ExtractedField :=
  (tokenRows toks).map (fun row =>
    let cells := (row.insertionSort tokenColOrder).map (fun t => t.text)
    { name := "table_row", rawText := String.mk (joinChars cells),
      typedValue := .tableRow cells,
      confidence := ((row.map (fun t => t.confidence)).foldr min 100),
      sourceRegionId := rid })

/-- Modelled from the spec: `extract(regionText, regionKind)` — pattern
rules for text regions, row splitting for table regions, nothing for
figures (§4.4).  Every produced candidate is tagged with the region id. -/
def extract (rid : Nat) (kind : RegionKind) (toks : List OcrToken) :
    List ExtractedField :=
  match kind with
  | .table => tableRowFields rid toks
  | .figure => []
  | _ => (toks.map (tokenCandidates rid)).flatten

/-- Modelled from the spec: a candidate field is accepted only if its
source-token OCR confidence exceeds `minFieldConfidence` (§4.4, §8). -/
def fieldAccepted (cfg : Config) (f : ExtractedField) : Bool :=
  decide (cfg.minFieldConfidence < f.confidence)

/-- Warning recorded when a low-confidence candidate is dropped (§7
LowConfidenceDrop). -/
def lowConfidenceWarning (f : ExtractedField) : String :=
  "low-confidence field dropped: " ++ f.name

/-- Modelled from the spec: the confidence floor — accepted fields and,
for each dropped candidate, a warning instead of low-quality data (§4.4). -/
def filterFields (cfg : Config) (cands : List ExtractedField) :
    List ExtractedField × List String :=
  (cands.filter (fieldAccepted cfg),
   (cands.filter (fun f => !fieldAccepted cfg f)).map lowConfidenceWarning)

/-- Modelled from the spec: what one region contributes to the aggregate —
its accepted fields, its warnings, and whether its whole engine chain was
unavailable (§4.5). -/
structure RegionOutcome where
  fields : List ExtractedField
  warnings : List String
  engineUnavailable : Bool
deriving DecidableEq, Repr

/-- Warning recorded when a region's whole engine chain is unavailable. -/
def engineUnavailableWarning (rid : Nat) : String :=
  "engine unavailable for region " ++ toString rid

/-- Modelled from the spec: processing of a single region — figures are
decorative and skipped; otherwise the OCR fallback chain runs on the
cropped region image and the extractor's candidates pass the confidence
floor.  A fully unavailable chain degrades only this region (§4.3, §4.5). -/
def processRegion (cfg : Config) (chain : List OCREngine) (canon : Image)
    (r : Region) : RegionOutcome :=
  if r.kind == .figure then ⟨[], [], false⟩
  else
    match (runChain cfg (crop canon r.box) chain).1 with
    | .unavailable => ⟨[], [engineUnavailableWarning r.id], true⟩
    | .accepted toks =>
      let fw := filterFields cfg (extract r.id r.kind toks)
      ⟨fw.1, fw.2, false⟩

/-- Modelled from the spec: the outcome forced for a region whose task was
cancelled by the document timeout (§5). -/
def timeoutOutcome : RegionOutcome :=
  ⟨[], ["region task timed out"], false⟩

/-- The region-indexed task body: completing task `i` computes the outcome
of the `i`-th detected region. -/
def taskOutcome (cfg : Config) (chain : List OCREngine) (canon : Image)
    (rs : List Region) (i : Nat) : RegionOutcome :=
  match rs.get? i with
  | some r => processRegion cfg chain canon r
  | none => timeoutOutcome

/-- Modelled from the spec: the aggregation barrier (§5) — tasks complete
in the order given by `sched`, and the orchestrator re-sorts the completed
outcomes into region reading order; a region missing from `sched` timed
out and contributes the timeout outcome. -/
def orderedOutcomes (cfg : Config) (chain : List OCREngine) (canon : Image)
    (rs : List Region) (sched : List Nat) : List RegionOutcome :=
  let completed := sched.map (fun i => (i, taskOutcome cfg chain canon rs i))
  (List.range rs.length).map (fun i => (completed.lookup i).getD timeoutOutcome)

/-- The outcomes of all regions in reading order (the canonical schedule). -/
def regionOutcomes (cfg : Config) (chain : List OCREngine) (canon : Image)
    (rs : List Region) : List RegionOutcome :=
  rs.map (processRegion cfg chain canon)

/-- Modelled from the spec: a region counts as usable when it produced at
least one accepted field or is legitimately figure/decorative (§4.5). -/
def regionUsable (r : Region) (o : RegionOutcome) : Bool :=
  r.kind == .figure || !o.fields.isEmpty

/-- Modelled from the spec: the aggregation rule for `overallStatus`
(§4.5): `Success` iff every region is usable, `PartialSuccess` when some
but not all are (or no region was found), `Failed` only when all engines
were unavailable for every non-figure region. -/
def aggregateStatus (pairs : List (Region × RegionOutcome)) : Status :=
  if pairs.isEmpty then .PartialSuccess
  else
    let nonFig := pairs.filter (fun p => p.1.kind != .figure)
    if !nonFig.isEmpty && nonFig.all (fun p => p.2.engineUnavailable) then .Failed
    else if pairs.all (fun p => regionUsable p.1 p.2) then .Success
    else .PartialSuccess

/-- Warning recorded in the zero-region degenerate case (§4.2). -/
def noRegionsWarning : String := "no regions detected"

/-- Warning describing a structural preprocessing error (§7). -/
def structuralWarning : PreprocessError → String
  | .UnsupportedFormat => "structural error: unreadable image"
  | .EmptyImage => "structural error: empty image"

/-- Warning recorded when every non-figure region's chain was unavailable. -/
def allEnginesUnavailableWarning : String :=
  "structural error: all OCR engines unavailable"

/-- Modelled from the spec: the orchestrator run with an explicit task
completion schedule (§4.5, §5).  A structural preprocessing error
short-circuits to a `Failed` result; otherwise regions are detected, the
per-region tasks complete in schedule order, and aggregation re-sorts them
into reading order before assembling the `ProcessingResult`. -/
def processSched (docId : Nat) (engines : List OCREngine) (sched : List Nat)
    (img : Image) (cfg : Config) : ProcessingResult :=
  match preprocess img cfg with
  | .error e =>
    { documentId := docId, regions := [], fields := [],
      overallStatus := .Failed, warnings := [structuralWarning e] }
  | .ok canon =>
    let chain := chainOf engines cfg
    let rs := detect docId canon
    let pairs := rs.zip (orderedOutcomes cfg chain canon rs sched)
    let status := aggregateStatus pairs
    { documentId := docId, regions := rs,
      fields := (pairs.map (fun p => p.2.fields)).flatten,
      overallStatus := status,
      warnings :=
        (if rs.isEmpty then [noRegionsWarning] else []) ++
          (if status == .Failed then [allEnginesUnavailableWarning] else []) ++
          (pairs.map (fun p => p.2.warnings)).flatten }

/-- Number of regions the detector finds for this input (zero when the
image does not decode). -/
def regionCount (docId : Nat) (img : Image) (cfg : Config) : Nat :=
  match preprocess img cfg with
  | .ok canon => (detect docId canon).length
  | .error _ => 0

/-- Modelled from the spec: `process(image, config) -> ProcessingResult`
(§6) — the orchestrator with the canonical (complete, in-order)
schedule. -/
def process (docId : Nat) (engines : List OCREngine) (img : Image)
    (cfg : Config) : ProcessingResult :=
  processSched docId engines (List.range (regionCount docId img cfg)) img cfg

/- Front-end components, embedded from src/frontend/src. -/

/-- The file selected in the DocumentUpload component
(src/frontend/src/components/DocumentUpload.jsx). -/
structure UploadFileInfo where
  name : String
deriving DecidableEq, Repr

/-- React state of DocumentUpload: `selectedFile` starts as null. -/
structure UploadState where
  selectedFile : Option UploadFileInfo
deriving DecidableEq, Repr

/-- Initial DocumentUpload state: `useState(null)`. -/
def initialUploadState : UploadState := ⟨none⟩

/-- A network request the DocumentUpload component can issue. -/
inductive UploadRequest where
  | postUpload (f : UploadFileInfo)
deriving DecidableEq, Repr

/-- `handleUpload` of DocumentUpload.jsx: with no selected file it returns
immediately; otherwise it issues exactly one POST to /api/upload carrying
the selected file. -/
def handleUpload (s : UploadState) : List UploadRequest :=
  match s.selectedFile with
  | none => []
  | some f => [.postUpload f]

/-- The `disabled` prop of the Upload button in DocumentUpload.jsx:
`!selectedFile`. -/
def uploadDisabled (s : UploadState) : Bool :=
  s.selectedFile.isNone

/-- A document record as rendered by DocumentViewer
(DocumentViewer source embedded in src/frontend/src/components/Layout.jsx). -/
structure DocumentRecord where
  filename : String
  uploadDate : String
  docStatus : String
  extractedData : Option (List (String × String))
  imageUrl : Option String
deriving DecidableEq, Repr

/-- React state of DocumentViewer: `document` starts as null and
`loading` as true. -/
structure ViewerState where
  document : Option DocumentRecord
  loading : Bool
deriving DecidableEq, Repr

/-- Initial DocumentViewer state: `useState(null)`, `useState(true)`. -/
def initialViewerState : ViewerState := ⟨none, true⟩

/-- `fetchDocument` of DocumentViewer: on a successful fetch it stores the
response body (which may be null) and clears `loading`; on a failed fetch
(the catch branch) it only clears `loading`. -/
def fetchDocument (s : ViewerState) (resp : Except String (Option DocumentRecord)) :
    ViewerState :=
  match resp with
  | .ok d => { s with document := d, loading := false }
  | .error _ => { s with loading := false }

/-- What DocumentViewer renders. -/
inductive ViewerView where
  | spinner
  | notFound
  | details (d : DocumentRecord)
deriving DecidableEq, Repr

/-- The render body of DocumentViewer: a spinner while loading, the
'Document not found' message when the document is null, else the details
page dereferencing the document. -/
def renderViewer (s : ViewerState) : ViewerView :=
  if s.loading then .spinner
  else
    match s.document with
    | none => .notFound
    | some d => .details d

/-- A document card as rendered by ProcessingDashboard
(src/unnamed/part_001). -/
structure DashboardDoc where
  id : Nat
  filename : String
  docStatus : String
  uploadDate : String
deriving DecidableEq, Repr

/-- React state of ProcessingDashboard: `documents` starts as the empty
array, `loading` as true. -/
structure DashboardState where
  documents : List DashboardDoc
  loading : Bool
deriving DecidableEq, Repr

/-- Initial ProcessingDashboard state: `useState([])`, `useState(true)`. -/
def initialDashboardState : DashboardState := ⟨[], true⟩

/-- `fetchDocuments` of ProcessingDashboard: on success it stores the
fetched list and clears `loading`; on failure (the catch branch) it leaves
`documents` unchanged and only clears `loading`. -/
def fetchDocuments (s : DashboardState) (resp : Except String (List DashboardDoc)) :
    DashboardState :=
  match resp with
  | .ok ds => { s with documents := ds, loading := false }
  | .error _ => { s with loading := false }

/-- What ProcessingDashboard renders. -/
inductive DashboardView where
  | progressBar
  | grid (docs : List DashboardDoc)
deriving DecidableEq, Repr

/-- The render body of ProcessingDashboard: a progress bar while loading,
else the grid mapped over `documents`. -/
def renderDashboard (s : DashboardState) : DashboardView :=
  if s.loading then .progressBar else .grid s.documents

/-- A rectangle lies within the given image bounds (§3 Region invariant). -/
def rectInBounds (wdt hgt : Nat) (r : Rect) : Bool :=
  decide (r.x + r.w ≤ wdt) && decide (r.y + r.h ≤ hgt)

/-- Modelled from the spec: the structural-error condition of §7 — the
image is unreadable or empty, or every non-figure region's whole engine
chain is unavailable.  These are the only causes of a `Failed` status. -/
def structuralFailure (docId : Nat) (engines : List OCREngine) (img : Image)
    (cfg : Config) : Bool :=
  match preprocess img cfg with
  | .error _ => true
  | .ok canon =>
    let rs := (detect docId canon).filter (fun r => r.kind != .figure)
    !rs.isEmpty &&
      rs.all (fun r => (processRegion cfg (chainOf engines cfg) canon r).engineUnavailable)

/-- The result assembled on the successful-preprocessing path with every
region outcome present, written without the schedule indirection. -/
def runOk (docId : Nat) (engines : List OCREngine) (canon : Image)
    (cfg : Config) : ProcessingResult :=
  let chain := chainOf engines cfg
  let rs := detect docId canon
  let pairs := rs.map (fun r => (r, processRegion cfg chain canon r))
  let status := aggregateStatus pairs
  { documentId := docId, regions := rs,
    fields := (pairs.map (fun p => p.2.fields)).flatten,
    overallStatus := status,
    warnings :=
      (if rs.isEmpty then [noRegionsWarning] else []) ++
        (if status == .Failed then [allEnginesUnavailableWarning] else []) ++
        (pairs.map (fun p => p.2.warnings)).flatten }

/-- The result assembled on a structural preprocessing error. -/
def failedResult (docId : Nat) (e : PreprocessError) : ProcessingResult :=
  { documentId := docId, regions := [], fields := [],
    overallStatus := .Failed, warnings := [structuralWarning e] }

/-- A small 4x5 grayscale test image with two separated ink bands. -/
def testImg : Image :=
  { width := 4, height := 5,
    pixels := [[0, 255, 255, 0], [255, 255, 255, 255], [255, 0, 255, 0],
               [255, 255, 255, 255], [255, 255, 255, 255]] }

/-- A zero-dimension image: preprocessing rejects it as `EmptyImage`. -/
def badImg : Image := { width := 0, height := 0, pixels := [] }

/-- A concrete configuration used to exercise the pipeline. -/
def testCfg : Config :=
  { denoiseStrength := 0, deskewEnabled := false, binarizationThreshold := 128,
    enginePreferenceOrder := [0], minFieldConfidence := 50,
    minEngineConfidence := 50, maxRegionParallelism := 2,
    documentTimeoutMs := 1000 }

/-- A deterministic OCR engine stub returning one high-confidence serial
token for any region image. -/
def stubEngine : OCREngine :=
  fun _ => some [{ text := "Serial: AB-1029", confidence := 95,
                   boundingBox := ⟨0, 0, 1, 1⟩, regionId := 0 }]

theorem zip_map_self {α β : Type} (l : List α) (f : α → β) :
    l.zip (l.map f) = l.map (fun a => (a, f a)) := by
  induction l with
  | nil => rfl
  | cons a t ih => simp [ih]

theorem lookup_map_fun {β : Type} (g : Nat → β) (l : List Nat) (i : Nat)
    (h : i ∈ l) : (l.map (fun j => (j, g j))).lookup i = some (g i) := by
  induction l with
  | nil => simp at h
  | cons j t ih =>
    rcases List.mem_cons.mp h with h1 | h2
    · subst h1; simp [List.lookup]
    · by_cases hij : j = i
      · subst hij; simp [List.lookup]
      · have hb : (i == j) = false := by simp [Ne.symm hij]
        simp only [List.lookup, hb]
        exact ih h2

theorem orderedOutcomes_covers (cfg : Config) (chain : List OCREngine)
    (canon : Image) (rs : List Region) (sched : List Nat)
    (h : ∀ i, i < rs.length → i ∈ sched) :
    orderedOutcomes cfg chain canon rs sched = regionOutcomes cfg chain canon rs := by
  unfold orderedOutcomes regionOutcomes
  apply List.ext_getElem
  · simp
  · intro n h1 h2
    have hn : n < rs.length := by simpa using h2
    simp only [List.getElem_map, List.getElem_range]
    rw [lookup_map_fun _ _ _ (h n hn)]
    unfold taskOutcome
    rw [List.get?_eq_getElem?, List.getElem?_eq_getElem hn]
    simp

theorem processSched_eq_runOk (docId : Nat) (engines : List OCREngine)
    (sched : List Nat) (img : Image) (cfg : Config) (canon : Image)
    (h : preprocess img cfg = .ok canon)
    (hcov : ∀ i, i < (detect docId canon).length → i ∈ sched) :
    processSched docId engines sched img cfg = runOk docId engines canon cfg := by
  simp only [processSched, runOk, h]
  rw [orderedOutcomes_covers _ _ _ _ _ hcov]
  simp only [regionOutcomes, zip_map_self]

theorem process_eq_runOk (docId : Nat) (engines : List OCREngine) (img : Image)
    (cfg : Config) (canon : Image) (h : preprocess img cfg = .ok canon) :
    process docId engines img cfg = runOk docId engines canon cfg := by
  unfold process
  apply processSched_eq_runOk _ _ _ _ _ _ h
  intro i hi
  have hrc : regionCount docId img cfg = (detect docId canon).length := by
    unfold regionCount; rw [h]
  rw [hrc]
  exact List.mem_range.mpr hi

theorem process_error (docId : Nat) (engines : List OCREngine) (img : Image)
    (cfg : Config) (e : PreprocessError) (h : preprocess img cfg = .error e) :
    process docId engines img cfg = failedResult docId e := by
  unfold process processSched failedResult
  rw [h]

theorem tokenCandidates_srcid (rid : Nat) (t : OcrToken) :
    ∀ fl ∈ tokenCandidates rid t, fl.sourceRegionId = rid := by
  intro fl hfl
  unfold tokenCandidates at hfl
  split at hfl
  · simp at hfl; subst hfl; rfl
  · split at hfl
    · simp at hfl; subst hfl; rfl
    · split at hfl
      · split at hfl
        · simp at hfl; subst hfl; rfl
        · simp at hfl
      · split at hfl
        · simp at hfl; subst hfl; rfl
        · simp at hfl
      · simp at hfl

theorem tableRowFields_srcid (rid : Nat) (toks : List OcrToken) :
    ∀ fl ∈ tableRowFields rid toks, fl.sourceRegionId = rid := by
  intro fl hfl
  unfold tableRowFields at hfl
  rcases List.mem_map.mp hfl with ⟨row, _, hrow⟩
  subst hrow; rfl

theorem extract_srcid (rid : Nat) (kind : RegionKind) (toks : List OcrToken) :
    ∀ fl ∈ extract rid kind toks, fl.sourceRegionId = rid := by
  intro fl hfl
  unfold extract at hfl
  cases kind with
  | table => exact tableRowFields_srcid rid toks fl hfl
  | figure => simp at hfl
  | text =>
    rcases List.mem_flatten.mp hfl with ⟨l, hl, hfl2⟩
    rcases List.mem_map.mp hl with ⟨t, _, ht⟩
    subst ht
    exact tokenCandidates_srcid rid t fl hfl2
  | unknown =>
    rcases List.mem_flatten.mp hfl with ⟨l, hl, hfl2⟩
    rcases List.mem_map.mp hl with ⟨t, _, ht⟩
    subst ht
    exact tokenCandidates_srcid rid t fl hfl2

theorem processRegion_cases (cfg : Config) (chain : List OCREngine)
    (canon : Image) (r : Region) :
    (processRegion cfg chain canon r).engineUnavailable = false ∨
      processRegion cfg chain canon r = ⟨[], [engineUnavailableWarning r.id], true⟩ := by
  unfold processRegion
  split
  · left; rfl
  · split
    · right; rfl
    · left; rfl

theorem processRegion_unavailable_fields (cfg : Config) (chain : List OCREngine)
    (canon : Image) (r : Region)
    (h : (processRegion cfg chain canon r).engineUnavailable = true) :
    (processRegion cfg chain canon r).fields = [] := by
  rcases processRegion_cases cfg chain canon r with h2 | h2
  · rw [h2] at h; cases h
  · rw [h2]

theorem processRegion_unavailable_warning (cfg : Config) (chain : List OCREngine)
    (canon : Image) (r : Region)
    (h : (processRegion cfg chain canon r).engineUnavailable = true) :
    engineUnavailableWarning r.id ∈ (processRegion cfg chain canon r).warnings := by
  rcases processRegion_cases cfg chain canon r with h2 | h2
  · rw [h2] at h; cases h
  · rw [h2]; exact List.mem_singleton.mpr rfl

theorem processRegion_fields_srcid (cfg : Config) (chain : List OCREngine)
    (canon : Image) (r : Region) :
    ∀ fl ∈ (processRegion cfg chain canon r).fields, fl.sourceRegionId = r.id := by
  intro fl hfl
  unfold processRegion at hfl
  split at hfl
  · simp at hfl
  · split at hfl
    · simp at hfl
    · unfold filterFields at hfl
      simp only at hfl
      exact extract_srcid r.id r.kind _ fl (List.mem_filter.mp hfl).1

theorem all_map_general {α β : Type} (l : List α) (g : α → β) (q : β → Bool) :
    (l.map g).all q = l.all (fun x => q (g x)) := by
  induction l <;> simp [*]

theorem isEmpty_map_general {α β : Type} (l : List α) (g : α → β) :
    (l.map g).isEmpty = l.isEmpty := by
  cases l <;> rfl

theorem pairs_filter_nonFig (rs : List Region) (f : Region → RegionOutcome) :
    ((rs.map fun r => (r, f r)).filter fun p => p.1.kind != .figure) =
      ((rs.filter fun r => r.kind != .figure).map fun r => (r, f r)) := by
  rw [List.filter_map]
  rfl

theorem aggregateStatus_map (rs : List Region) (f : Region → RegionOutcome) :
    aggregateStatus (rs.map fun r => (r, f r)) =
      if rs.isEmpty then .PartialSuccess
      else if !(rs.filter fun r => r.kind != .figure).isEmpty &&
          ((rs.filter fun r => r.kind != .figure).all fun r => (f r).engineUnavailable)
        then .Failed
      else if rs.all (fun r => regionUsable r (f r)) then .Success
      else .PartialSuccess := by
  unfold aggregateStatus
  simp only [pairs_filter_nonFig, all_map_general, isEmpty_map_general]

theorem aggregate_success_iff (rs : List Region) (f : Region → RegionOutcome)
    (hUF : ∀ r ∈ rs, (f r).engineUnavailable = true → (f r).fields = []) :
    (aggregateStatus (rs.map fun r => (r, f r)) = .Success ↔
      rs ≠ [] ∧ ∀ r ∈ rs, regionUsable r (f r) = true) := by
  rw [aggregateStatus_map]
  rcases eq_or_ne rs [] with hrs | hrs
  · subst hrs; simp
  · rw [if_neg (by simp [List.isEmpty_iff, hrs])]
    by_cases hF : (!(rs.filter fun r => r.kind != .figure).isEmpty &&
        ((rs.filter fun r => r.kind != .figure).all fun r => (f r).engineUnavailable)) = true
    · rw [if_pos hF]
      constructor
      · intro hc; cases hc
      · rintro ⟨-, hall⟩
        exfalso
        simp only [Bool.and_eq_true] at hF
        rcases hF with ⟨h1, h2⟩
        have hne : (rs.filter fun r => r.kind != .figure) ≠ [] := by
          simpa [List.isEmpty_iff] using h1
        rcases List.exists_mem_of_ne_nil _ hne with ⟨r, hr⟩
        rcases List.mem_filter.mp hr with ⟨hrmem, hrkind⟩
        have hun : (f r).engineUnavailable = true := List.all_eq_true.mp h2 r hr
        have hfe : (f r).fields = [] := hUF r hrmem hun
        have husable := hall r hrmem
        rw [regionUsable, hfe] at husable
        simp at husable
        rw [husable] at hrkind
        simp at hrkind
    · rw [if_neg hF]
      by_cases hU : rs.all (fun r => regionUsable r (f r)) = true
      · rw [if_pos hU]
        simp only [true_iff, iff_true]
        exact ⟨hrs, List.all_eq_true.mp hU⟩
      · rw [if_neg hU]
        constructor
        · intro hc; cases hc
        · rintro ⟨-, hall⟩
          exact absurd (List.all_eq_true.mpr hall) hU

theorem aggregate_failed_iff (rs : List Region) (f : Region → RegionOutcome) :
    (aggregateStatus (rs.map fun r => (r, f r)) = .Failed ↔
      (rs.filter fun r => r.kind != .figure) ≠ [] ∧
        ∀ r ∈ rs.filter (fun r => r.kind != .figure), (f r).engineUnavailable = true) := by
  rw [aggregateStatus_map]
  rcases eq_or_ne rs [] with hrs | hrs
  · subst hrs; simp
  · rw [if_neg (by simp [List.isEmpty_iff, hrs])]
    by_cases hF : (!(rs.filter fun r => r.kind != .figure).isEmpty &&
        ((rs.filter fun r => r.kind != .figure).all fun r => (f r).engineUnavailable)) = true
    · rw [if_pos hF]
      simp only [Bool.and_eq_true] at hF
      rcases hF with ⟨h1, h2⟩
      simp only [true_iff, iff_true]
      exact ⟨by simpa [List.isEmpty_iff] using h1, List.all_eq_true.mp h2⟩
    · rw [if_neg hF]
      constructor
      · intro hc
        by_cases hU : rs.all (fun r => regionUsable r (f r)) = true
        · rw [if_pos hU] at hc; cases hc
        · rw [if_neg hU] at hc; cases hc
      · rintro ⟨hne, hall⟩
        apply absurd _ hF
        simp only [Bool.and_eq_true]
        exact ⟨by simpa [List.isEmpty_iff] using hne, List.all_eq_true.mpr hall⟩

theorem detect_map_id (docId : Nat) (canon : Image) :
    (detect docId canon).map (fun r => r.id) = List.range (detectRects canon).length := by
  unfold detect
  rw [List.map_map]
  have h : ((fun r => Region.id r) ∘ fun ib : Nat × Rect =>
      ({ id := ib.1, box := ib.2, kind := classify canon ib.2,
         sourceImageId := docId } : Region)) = Prod.fst := rfl
  rw [h, List.enum_map_fst]

theorem detect_id_inj (docId : Nat) (canon : Image) :
    ∀ r ∈ detect docId canon, ∀ r2 ∈ detect docId canon, r.id = r2.id → r = r2 := by
  have hnd : ((detect docId canon).map (fun r => r.id)).Nodup := by
    rw [detect_map_id]; exact List.nodup_range _
  intro r hr r2 hr2 hid
  exact List.inj_on_of_nodup_map hnd hr hr2 hid

/-- C2: `overallStatus` is `Success` iff every detected region produced at
least one accepted field or is figure/decorative; in the zero-region case
the result carries an empty region sequence, `PartialSuccess`, and a
warning; and `Failed` occurs only under the structural-error condition. -/
theorem overallStatus_aggregation_rule (docId : Nat) (engines : List OCREngine)
    (img : Image) (cfg : Config) :
    ((process docId engines img cfg).overallStatus = .Success ↔
      (process docId engines img cfg).regions ≠ [] ∧
        ∀ r ∈ (process docId engines img cfg).regions,
          r.kind = .figure ∨ ∃ fl ∈ (process docId engines img cfg).fields,
            fl.sourceRegionId = r.id) ∧
    (∀ canon, preprocess img cfg = .ok canon → detect docId canon = [] →
      (process docId engines img cfg).overallStatus = .PartialSuccess ∧
        (process docId engines img cfg).regions = [] ∧
        noRegionsWarning ∈ (process docId engines img cfg).warnings) ∧
    ((process docId engines img cfg).overallStatus = .Failed →
      structuralFailure docId engines img cfg = true) := by
  cases hpre : preprocess img cfg with
  | error e =>
    simp only [process_error docId engines img cfg e hpre, failedResult]
    refine ⟨?_, ?_, ?_⟩
    · constructor
      · intro hc; cases hc
      · rintro ⟨hne, -⟩; exact absurd rfl hne
    · intro canon hok; exact Except.noConfusion hok
    · intro _; unfold structuralFailure; rw [hpre]
  | ok canon =>
    simp only [process_eq_runOk docId engines img cfg canon hpre, runOk,
      List.map_map, Function.comp]
    set rs := detect docId canon with hrs
    set f := processRegion cfg (chainOf engines cfg) canon with hf
    have hUF : ∀ r ∈ rs, (f r).engineUnavailable = true → (f r).fields = [] :=
      fun r _ h => processRegion_unavailable_fields _ _ _ _ h
    refine ⟨?_, ?_, ?_⟩
    · rw [aggregate_success_iff rs f hUF]
      apply and_congr_right
      intro hne
      constructor
      · intro hall r hr
        have hu := hall r hr
        rw [regionUsable, Bool.or_eq_true] at hu
        rcases hu with hu | hu
        · exact Or.inl (by simpa using hu)
        · have hfne : (f r).fields ≠ [] := by
            simpa [List.isEmpty_iff] using hu
          rcases List.exists_mem_of_ne_nil _ hfne with ⟨fl, hfl⟩
          refine Or.inr ⟨fl, ?_, processRegion_fields_srcid _ _ _ _ fl hfl⟩
          exact List.mem_flatten.mpr ⟨(f r).fields, List.mem_map.mpr ⟨r, hr, rfl⟩, hfl⟩
      · intro hall r hr
        rw [regionUsable, Bool.or_eq_true]
        rcases hall r hr with hk | ⟨fl, hflmem, hflid⟩
        · exact Or.inl (by simp [hk])
        · rcases List.mem_flatten.mp hflmem with ⟨l, hl, hfl⟩
          rcases List.mem_map.mp hl with ⟨r2, hr2, hl2⟩
          subst hl2
          have hid : fl.sourceRegionId = r2.id :=
            processRegion_fields_srcid _ _ _ _ fl hfl
          have : r2 = r := detect_id_inj docId canon r2 hr2 r hr (by
            rw [← hid, hflid])
          subst this
          exact Or.inr (by
            simpa [List.isEmpty_iff] using List.ne_nil_of_mem hfl)
    · intro canon2 hok hdet
      injection hok with hok
      subst hok
      rw [← hrs] at hdet
      refine ⟨?_, hdet, ?_⟩
      · rw [hdet]; rfl
      · rw [hdet]
        simp [aggregateStatus]
    · intro hfail
      rw [aggregate_failed_iff rs f] at hfail
      rcases hfail with ⟨hne, hall⟩
      unfold structuralFailure
      rw [hpre]
      simp only [Bool.and_eq_true]
      exact ⟨by simpa [List.isEmpty_iff] using hne, List.all_eq_true.mpr hall⟩

/-- C3: `process` always returns a `ProcessingResult`: structural errors
become a `Failed` result carrying the structural warning; the status is
`Failed` exactly under the structural-error condition; and a region-level
engine failure is absorbed into a warning on that region's outcome. -/
theorem error_propagation_policy (docId : Nat) (engines : List OCREngine)
    (img : Image) (cfg : Config) :
    (∀ e, preprocess img cfg = .error e →
      process docId engines img cfg = failedResult docId e ∧
        (process docId engines img cfg).overallStatus = .Failed ∧
        structuralWarning e ∈ (process docId engines img cfg).warnings) ∧
    ((process docId engines img cfg).overallStatus = .Failed ↔
      structuralFailure docId engines img cfg = true) ∧
    (∀ chain canon r, (processRegion cfg chain canon r).engineUnavailable = true →
      engineUnavailableWarning r.id ∈ (processRegion cfg chain canon r).warnings) := by
  refine ⟨?_, ?_, ?_⟩
  · intro e he
    rw [process_error docId engines img cfg e he]
    exact ⟨rfl, rfl, List.mem_singleton.mpr rfl⟩
  · cases hpre : preprocess img cfg with
    | error e =>
      rw [process_error docId engines img cfg e hpre]
      unfold structuralFailure
      rw [hpre]
      simp [failedResult]
    | ok canon =>
      simp only [process_eq_runOk docId engines img cfg canon hpre, runOk]
      rw [aggregate_failed_iff (detect docId canon)
        (processRegion cfg (chainOf engines cfg) canon)]
      unfold structuralFailure
      rw [hpre]
      simp [List.isEmpty_iff, List.all_eq_true]
      intro x hx hk
      constructor
      · intro h y hy
        by_cases hky : y.kind = RegionKind.figure
        · exact Or.inl hky
        · exact Or.inr (h y hy hky)
      · intro h y hy hky
        rcases h y hy with h2 | h2
        · exact absurd h2 hky
        · exact h2
  · intro chain canon r h
    exact processRegion_unavailable_warning cfg chain canon r h

theorem processRegion_fields_accepted (cfg : Config) (chain : List OCREngine)
    (canon : Image) (r : Region) :
    ∀ fl ∈ (processRegion cfg chain canon r).fields, fieldAccepted cfg fl = true := by
  intro fl hfl
  unfold processRegion at hfl
  split at hfl
  · simp at hfl
  · split at hfl
    · simp at hfl
    · unfold filterFields at hfl
      simp only at hfl
      exact (List.mem_filter.mp hfl).2

/-- C4: no field in a result has confidence below `minFieldConfidence`,
and every candidate whose confidence does not exceed the threshold is
turned into a low-confidence warning by the filter instead of being
emitted. -/
theorem confidence_floor (docId : Nat) (engines : List OCREngine)
    (img : Image) (cfg : Config) :
    (∀ fl ∈ (process docId engines img cfg).fields,
      ¬ fl.confidence < cfg.minFieldConfidence) ∧
    (∀ cands fl, fl ∈ cands → fieldAccepted cfg fl = false →
      lowConfidenceWarning fl ∈ (filterFields cfg cands).2) := by
  constructor
  · intro fl hfl
    cases hpre : preprocess img cfg with
    | error e =>
      rw [process_error docId engines img cfg e hpre] at hfl
      simp [failedResult] at hfl
    | ok canon =>
      rw [process_eq_runOk docId engines img cfg canon hpre] at hfl
      simp only [runOk, List.map_map, Function.comp] at hfl
      rcases List.mem_flatten.mp hfl with ⟨l, hl, hfl2⟩
      rcases List.mem_map.mp hl with ⟨r, hr, hl2⟩
      subst hl2
      have hacc := processRegion_fields_accepted cfg (chainOf engines cfg)
        canon r fl hfl2
      rw [fieldAccepted, decide_eq_true_eq] at hacc
      omega
  · intro cands fl hmem hrej
    unfold filterFields
    simp only
    exact List.mem_map.mpr ⟨fl, List.mem_filter.mpr ⟨hmem, by simp [hrej]⟩, rfl⟩

/-- C1: `process` is deterministic — two runs on images with identical
dimensions and identical pixel bytes, the same configuration, and the same
engine registry produce the same `fields` sequence (indeed the same whole
result). -/
theorem process_deterministic (docId : Nat) (engines : List OCREngine)
    (cfg : Config) (img1 img2 : Image) (hw : img1.width = img2.width)
    (hh : img1.height = img2.height) (hp : img1.pixels = img2.pixels) :
    (process docId engines img1 cfg).fields = (process docId engines img2 cfg).fields ∧
      process docId engines img1 cfg = process docId engines img2 cfg := by
  obtain ⟨w1, h1, p1⟩ := img1
  obtain ⟨w2, h2, p2⟩ := img2
  cases hw
  cases hh
  cases hp
  exact ⟨rfl, rfl⟩

/-- C6: regardless of the order in which per-region tasks complete, a
schedule that completes every region yields exactly the canonical result,
whose `fields` sequence is the reading-order concatenation of the
per-region field lists — never the completion order. -/
theorem fields_reading_order (docId : Nat) (engines : List OCREngine)
    (img : Image) (cfg : Config) (sched : List Nat)
    (hcov : ∀ i, i < regionCount docId img cfg → i ∈ sched) :
    processSched docId engines sched img cfg = process docId engines img cfg ∧
    ∀ canon, preprocess img cfg = .ok canon →
      (processSched docId engines sched img cfg).fields =
        ((detect docId canon).map (fun r =>
          (processRegion cfg (chainOf engines cfg) canon r).fields)).flatten := by
  have hmain : processSched docId engines sched img cfg =
      process docId engines img cfg := by
    cases hpre : preprocess img cfg with
    | error e =>
      unfold process processSched
      rw [hpre]
    | ok canon =>
      have hc : ∀ i, i < (detect docId canon).length → i ∈ sched := by
        intro i hi
        apply hcov
        unfold regionCount
        rw [hpre]
        exact hi
      rw [processSched_eq_runOk docId engines sched img cfg canon hpre hc,
        process_eq_runOk docId engines img cfg canon hpre]
  refine ⟨hmain, ?_⟩
  intro canon hpre
  rw [hmain, process_eq_runOk docId engines img cfg canon hpre]
  simp only [runOk, List.map_map]
  rfl

/-- C7: per region the fallback chain makes at most `N` engine attempts
(`N` the chain length), and when the first engine already returns an
acceptable token sequence there is exactly one attempt — later engines are
tried only on zero tokens, low average confidence, or unavailability. -/
theorem fallback_chain_bound (cfg : Config) (regionImg : Image)
    (chain : List OCREngine) :
    (runChain cfg regionImg chain).2 ≤ chain.length ∧
    (∀ e rest toks, chain = e :: rest → e regionImg = some toks →
      acceptableTokens cfg toks = true →
      runChain cfg regionImg chain = (.accepted toks, 1)) := by
  constructor
  · induction chain with
    | nil => simp [runChain]
    | cons e rest ih =>
      cases he : e regionImg with
      | none =>
        have hstep : runChain cfg regionImg (e :: rest) =
            ((runChain cfg regionImg rest).1, (runChain cfg regionImg rest).2 + 1) := by
          simp [runChain, he]
        rw [hstep]
        simpa using Nat.succ_le_succ ih
      | some toks =>
        by_cases ha : acceptableTokens cfg toks = true
        · have hstep : runChain cfg regionImg (e :: rest) =
              (.accepted toks, 1) := by
            simp [runChain, he, ha]
          rw [hstep]
          simp
        · rcases hr : runChain cfg regionImg rest with ⟨o, n⟩
          have hn : n ≤ rest.length := by rw [hr] at ih; exact ih
          cases o with
          | unavailable =>
            have hstep : runChain cfg regionImg (e :: rest) =
                (.accepted toks, n + 1) := by
              simp [runChain, he, ha, hr]
            rw [hstep]
            simpa using Nat.succ_le_succ hn
          | accepted toks2 =>
            have hstep : runChain cfg regionImg (e :: rest) =
                (.accepted toks2, n + 1) := by
              simp [runChain, he, ha, hr]
            rw [hstep]
            simpa using Nat.succ_le_succ hn
  · rintro e rest toks rfl he ha
    simp [runChain, he, ha]

theorem foldr_min_le_init (l : List Nat) (d : Nat) : l.foldr min d ≤ d := by
  induction l with
  | nil => exact Nat.le_refl d
  | cons c t ih => exact Nat.le_trans (Nat.min_le_right c _) ih

theorem foldr_max_lt (l : List Nat) (W : Nat) (hb : ∀ c ∈ l, c < W)
    (hne : l ≠ []) : l.foldr max 0 < W := by
  induction l with
  | nil => exact absurd rfl hne
  | cons c t ih =>
    have hc : c < W := hb c (List.mem_cons_self c t)
    rcases eq_or_ne t [] with ht | ht
    · subst ht
      simpa using hc
    · have htl : t.foldr max 0 < W :=
        ih (fun x hx => hb x (List.mem_cons_of_mem c hx)) ht
      simpa [Nat.max_lt] using ⟨hc, htl⟩

theorem darkCols_lt (row : List Nat) : ∀ c ∈ darkCols row, c < row.length := by
  intro c hc
  unfold darkCols at hc
  rcases List.mem_map.mp hc with ⟨cp, hcp, hfst⟩
  have hmem := (List.mem_filter.mp hcp).1
  have hget := List.mem_enum_iff_getElem?.mp hmem
  rcases List.getElem?_eq_some.mp hget with ⟨hlt, -⟩
  rw [← hfst]
  exact hlt

theorem bands_mem (l : List (Nat × List Nat)) :
    ∀ b ∈ bands l, ∀ p ∈ b, p ∈ l := by
  induction l with
  | nil => intro b hb; simp [bands] at hb
  | cons r rest ih =>
    intro b hb p hp
    simp only [bands] at hb
    by_cases hd : rowHasDark r.2 = true
    · rw [if_pos hd] at hb
      cases hg : bands rest with
      | nil =>
        rw [hg] at hb
        simp at hb
        subst hb
        simp at hp
        subst hp
        exact List.mem_cons_self _ _
      | cons b0 bs =>
        rw [hg] at hb
        cases b0 with
        | nil =>
          rcases List.mem_cons.mp hb with hb1 | hb2
          · subst hb1
            simp at hp
            subst hp
            exact List.mem_cons_self _ _
          · have : b ∈ bands rest := by rw [hg]; exact List.mem_cons_of_mem _ hb2
            exact List.mem_cons_of_mem r (ih b this p hp)
        | cons q b0t =>
          obtain ⟨i, row⟩ := q
          dsimp only at hb
          by_cases hi : (i == r.1 + 1) = true
          · rw [if_pos hi] at hb
            rcases List.mem_cons.mp hb with hb1 | hb2
            · subst hb1
              rcases List.mem_cons.mp hp with hp1 | hp2
              · subst hp1
                exact List.mem_cons_self p rest
              · have hbin : (i, row) :: b0t ∈ bands rest := by
                  rw [hg]; exact List.mem_cons_self _ _
                exact List.mem_cons_of_mem r (ih _ hbin p hp2)
            · have : b ∈ bands rest := by rw [hg]; exact List.mem_cons_of_mem _ hb2
              exact List.mem_cons_of_mem r (ih b this p hp)
          · rw [if_neg hi] at hb
            rcases List.mem_cons.mp hb with hb1 | hb2
            · subst hb1
              simp at hp
              subst hp
              exact List.mem_cons_self _ _
            · have : b ∈ bands rest := by rw [hg]; exact hb2
              exact List.mem_cons_of_mem r (ih b this p hp)
    · rw [if_neg hd] at hb
      exact List.mem_cons_of_mem r (ih b hb p hp)

theorem bandRect_inBounds (wdt hgt : Nat) (b : List (Nat × List Nat))
    (hrows : ∀ p ∈ b, p.1 < hgt ∧ p.2.length = wdt) :
    ∀ r, bandRect wdt hgt b = some r → rectInBounds wdt hgt r = true := by
  intro r h
  simp only [bandRect] at h
  split at h
  · cases h
  · rename_i hcond
    injection h with h
    subst h
    have hcols : ∀ c ∈ (b.map (fun p => darkCols p.2)).flatten, c < wdt := by
      intro c hc
      rcases List.mem_flatten.mp hc with ⟨dl, hdl, hcd⟩
      rcases List.mem_map.mp hdl with ⟨p, hp, hdl2⟩
      subst hdl2
      have := darkCols_lt p.2 c hcd
      rw [(hrows p hp).2] at this
      exact this
    have hys : ∀ y ∈ b.map (fun p => p.1), y < hgt := by
      intro y hy
      rcases List.mem_map.mp hy with ⟨p, hp, hy2⟩
      subst hy2
      exact (hrows p hp).1
    rw [Bool.or_eq_true] at hcond
    push_neg at hcond
    rcases hcond with ⟨hc1, hc2⟩
    have hcne : (b.map (fun p => darkCols p.2)).flatten ≠ [] := by
      intro hnil
      exact hc1 (by rw [hnil]; rfl)
    have hyne : b.map (fun p => p.1) ≠ [] := by
      intro hnil
      exact hc2 (by rw [hnil]; rfl)
    rw [rectInBounds]
    simp only [Bool.and_eq_true, decide_eq_true_eq]
    refine ⟨?_, ?_⟩
    · have hx0 := foldr_min_le_init ((b.map (fun p => darkCols p.2)).flatten) wdt
      have hx1 := foldr_max_lt ((b.map (fun p => darkCols p.2)).flatten) wdt hcols hcne
      omega
    · have hy0 := foldr_min_le_init (b.map (fun p => p.1)) hgt
      have hy1 := foldr_max_lt (b.map (fun p => p.1)) hgt hys hyne
      omega

theorem mergeStep_none_pairwise (rs : List Rect) (h : mergeStep rs = none) :
    rs.Pairwise (fun a b => overlapBeyond a b = false) := by
  induction rs with
  | nil => exact List.Pairwise.nil
  | cons r rest ih =>
    simp only [mergeStep] at h
    cases hf : rest.find? (fun s => overlapBeyond r s) with
    | some s => rw [hf] at h; cases h
    | none =>
      rw [hf] at h
      have hm : mergeStep rest = none := by
        cases hm2 : mergeStep rest with
        | none => rfl
        | some l => rw [hm2] at h; cases h
      refine List.Pairwise.cons ?_ (ih hm)
      intro s hs
      have := List.find?_eq_none.mp hf s hs
      simpa using this

theorem mergeStep_some_length (rs rs2 : List Rect) (h : mergeStep rs = some rs2) :
    rs.length = rs2.length + 1 := by
  induction rs generalizing rs2 with
  | nil => simp [mergeStep] at h
  | cons r rest ih =>
    simp only [mergeStep] at h
    cases hf : rest.find? (fun s => overlapBeyond r s) with
    | some s =>
      rw [hf] at h
      injection h with h
      subst h
      have hmem := List.mem_of_find?_eq_some hf
      have hlen := List.length_erase_of_mem hmem
      have hpos : 1 ≤ rest.length := List.length_pos.mpr (List.ne_nil_of_mem hmem)
      simp only [List.length_cons, hlen]
      omega
    | none =>
      rw [hf] at h
      cases hm : mergeStep rest with
      | none => rw [hm] at h; cases h
      | some l =>
        rw [hm] at h
        injection h with h
        subst h
        simp only [List.length_cons, ih l hm]

theorem mergeStep_some_mem (rs rs2 : List Rect) (h : mergeStep rs = some rs2) :
    ∀ x ∈ rs2, x ∈ rs ∨ ∃ a ∈ rs, ∃ b ∈ rs, x = rectUnion a b := by
  induction rs generalizing rs2 with
  | nil => simp [mergeStep] at h
  | cons r rest ih =>
    simp only [mergeStep] at h
    cases hf : rest.find? (fun s => overlapBeyond r s) with
    | some s =>
      rw [hf] at h
      injection h with h
      subst h
      intro x hx
      rcases List.mem_cons.mp hx with hx1 | hx2
      · subst hx1
        exact Or.inr ⟨r, List.mem_cons_self _ _, s,
          List.mem_cons_of_mem r (List.mem_of_find?_eq_some hf), rfl⟩
      · exact Or.inl (List.mem_cons_of_mem r (List.erase_subset _ _ hx2))
    | none =>
      rw [hf] at h
      cases hm : mergeStep rest with
      | none => rw [hm] at h; cases h
      | some l =>
        rw [hm] at h
        injection h with h
        subst h
        intro x hx
        rcases List.mem_cons.mp hx with hx1 | hx2
        · subst hx1
          exact Or.inl (List.mem_cons_self _ _)
        · rcases ih l hm x hx2 with hx3 | ⟨a, ha, b, hb, hxe⟩
          · exact Or.inl (List.mem_cons_of_mem r hx3)
          · exact Or.inr ⟨a, List.mem_cons_of_mem r ha, b,
              List.mem_cons_of_mem r hb, hxe⟩

theorem mergeAll_pairwise (fuel : Nat) (rs : List Rect)
    (h : rs.length ≤ fuel + 1) :
    (mergeAll fuel rs).Pairwise (fun a b => overlapBeyond a b = false) := by
  induction fuel generalizing rs with
  | zero =>
    cases rs with
    | nil => simp [mergeAll]
    | cons a t =>
      cases t with
      | nil => simp [mergeAll]
      | cons b t2 => simp at h
  | succ n ih =>
    rw [mergeAll]
    cases hm : mergeStep rs with
    | none => exact mergeStep_none_pairwise rs hm
    | some rs2 =>
      apply ih
      have := mergeStep_some_length rs rs2 hm
      omega

theorem rectUnion_inBounds (W H : Nat) (a b : Rect)
    (ha : rectInBounds W H a = true) (hb : rectInBounds W H b = true) :
    rectInBounds W H (rectUnion a b) = true := by
  rw [rectInBounds] at ha hb ⊢
  simp only [Bool.and_eq_true, decide_eq_true_eq] at ha hb ⊢
  unfold rectUnion
  dsimp only
  omega

theorem mergeAll_inBounds (W H : Nat) (fuel : Nat) (rs : List Rect)
    (hall : ∀ r ∈ rs, rectInBounds W H r = true) :
    ∀ r ∈ mergeAll fuel rs, rectInBounds W H r = true := by
  induction fuel generalizing rs with
  | zero => simpa [mergeAll] using hall
  | succ n ih =>
    intro r hr
    rw [mergeAll] at hr
    cases hm : mergeStep rs with
    | none => rw [hm] at hr; exact hall r hr
    | some rs2 =>
      rw [hm] at hr
      refine ih rs2 ?_ r hr
      intro x hx
      rcases mergeStep_some_mem rs rs2 hm x hx with hx1 | ⟨a, hma, b, hmb, hxe⟩
      · exact hall x hx1
      · subst hxe
        exact rectUnion_inBounds W H a b (hall a hma) (hall b hmb)

theorem overlapBeyond_symm (a b : Rect) : overlapBeyond a b = overlapBeyond b a := by
  have h1 : interLen a.x a.w b.x b.w = interLen b.x b.w a.x a.w := by
    unfold interLen
    rw [Nat.min_comm, Nat.max_comm]
  have h2 : interLen a.y a.h b.y b.h = interLen b.y b.h a.y a.h := by
    unfold interLen
    rw [Nat.min_comm, Nat.max_comm]
  unfold overlapBeyond interArea
  rw [h1, h2, Nat.min_comm]

theorem grayscale_shape (img : Image)
    (hrows : ∀ row ∈ img.pixels, row.length = img.width) :
    (grayscaleNormalize img).width = img.width ∧
    (grayscaleNormalize img).height = img.height ∧
    (grayscaleNormalize img).pixels.length = img.pixels.length ∧
    ∀ row ∈ (grayscaleNormalize img).pixels, row.length = img.width := by
  refine ⟨rfl, rfl, by simp [grayscaleNormalize], ?_⟩
  intro row hrow
  rcases List.mem_map.mp (by simpa [grayscaleNormalize] using hrow) with ⟨row0, h0, hr⟩
  subst hr
  simp [hrows row0 h0]

theorem denoise_shape (strength : Nat) (img : Image)
    (hrows : ∀ row ∈ img.pixels, row.length = img.width) :
    (denoise strength img).width = img.width ∧
    (denoise strength img).height = img.height ∧
    (denoise strength img).pixels.length = img.pixels.length ∧
    ∀ row ∈ (denoise strength img).pixels, row.length = img.width := by
  refine ⟨rfl, rfl, by simp [denoise], ?_⟩
  intro row hrow
  rcases List.mem_map.mp (by simpa [denoise] using hrow) with ⟨row0, h0, hr⟩
  subst hr
  simp [hrows row0 h0]

theorem binarize_shape (thr : Nat) (img : Image)
    (hrows : ∀ row ∈ img.pixels, row.length = img.width) :
    (binarize thr img).width = img.width ∧
    (binarize thr img).height = img.height ∧
    (binarize thr img).pixels.length = img.pixels.length ∧
    ∀ row ∈ (binarize thr img).pixels, row.length = img.width := by
  refine ⟨rfl, rfl, by simp [binarize], ?_⟩
  intro row hrow
  rcases List.mem_map.mp (by simpa [binarize] using hrow) with ⟨row0, h0, hr⟩
  subst hr
  simp [hrows row0 h0]

theorem shiftRow_length (W : Nat) (s : Int) (row : List Nat)
    (h : row.length = W) : (shiftRow W s row).length = W := by
  unfold shiftRow
  split
  · simp only [List.length_take, List.length_append, List.length_replicate]
    omega
  · simp only [List.length_append, List.length_drop, List.length_replicate]
    omega

theorem deskew_shape (thr : Nat) (img : Image)
    (hrows : ∀ row ∈ img.pixels, row.length = img.width) :
    (deskew thr img).width = img.width ∧
    (deskew thr img).height = img.height ∧
    (deskew thr img).pixels.length = img.pixels.length ∧
    ∀ row ∈ (deskew thr img).pixels, row.length = img.width := by
  unfold deskew
  dsimp only
  split
  · split
    · exact ⟨rfl, rfl, rfl, hrows⟩
    · refine ⟨rfl, rfl, by simp, ?_⟩
      intro row hrow
      rcases List.mem_map.mp hrow with ⟨ir, hir, hr⟩
      subst hr
      have hmem : ir.2 ∈ img.pixels := by
        have h2 : ir.2 ∈ img.pixels.enum.map Prod.snd :=
          List.mem_map.mpr ⟨ir, hir, rfl⟩
        rwa [List.enum_map_snd] at h2
      exact shiftRow_length img.width _ ir.2 (hrows ir.2 hmem)
  · exact ⟨rfl, rfl, rfl, hrows⟩

theorem preprocess_ok_shape (img : Image) (cfg : Config) (canon : Image)
    (h : preprocess img cfg = .ok canon) :
    canon.width = img.width ∧ canon.height = img.height ∧
      canon.pixels.length = img.height ∧
      ∀ row ∈ canon.pixels, row.length = img.width := by
  unfold preprocess at h
  split at h
  · cases h
  · split at h
    · cases h
    · rename_i hwf hdim
      rw [not_not] at hwf
      unfold wellFormed at hwf
      simp only [Bool.and_eq_true, beq_iff_eq, List.all_eq_true] at hwf
      obtain ⟨hlen0, hrows0⟩ := hwf
      have hrows0p : ∀ row ∈ img.pixels, row.length = img.width := by
        intro row hrow
        simpa using hrows0 row hrow
      injection h with h
      obtain ⟨gw, gh, gl, grows⟩ := grayscale_shape img hrows0p
      have grows2 : ∀ row ∈ (grayscaleNormalize img).pixels,
          row.length = (grayscaleNormalize img).width := by
        intro row hrow; rw [gw]; exact grows row hrow
      obtain ⟨dw, dh, dl, drows⟩ :=
        denoise_shape cfg.denoiseStrength (grayscaleNormalize img) grows2
      have dwidth : (denoise cfg.denoiseStrength (grayscaleNormalize img)).width =
          img.width := by rw [dw, gw]
      have drows2 : ∀ row ∈ (denoise cfg.denoiseStrength (grayscaleNormalize img)).pixels,
          row.length = (denoise cfg.denoiseStrength (grayscaleNormalize img)).width := by
        intro row hrow; rw [dw]; exact drows row hrow
      set d := denoise cfg.denoiseStrength (grayscaleNormalize img) with hd
      have hdl : d.pixels.length = img.height := by
        rw [dl, gl, hlen0]
      cases hde : cfg.deskewEnabled with
      | false =>
        rw [hde] at h
        simp only [if_neg Bool.false_ne_true] at h
        obtain ⟨bw, bh, bl, brows⟩ := binarize_shape cfg.binarizationThreshold d drows2
        refine ⟨?_, ?_, ?_, ?_⟩
        · rw [← h, bw, dwidth]
        · rw [← h, bh, dh, gh]
        · rw [← h, bl, hdl]
        · intro row hrow
          rw [← h] at hrow
          rw [← dwidth]
          exact brows row hrow
      | true =>
        rw [hde] at h
        simp only [if_pos] at h
        obtain ⟨kw, kh, kl, krows⟩ :=
          deskew_shape cfg.binarizationThreshold d drows2
        have krows2 : ∀ row ∈ (deskew cfg.binarizationThreshold d).pixels,
            row.length = (deskew cfg.binarizationThreshold d).width := by
          intro row hrow; rw [kw]; exact krows row hrow
        obtain ⟨bw, bh, bl, brows⟩ :=
          binarize_shape cfg.binarizationThreshold
            (deskew cfg.binarizationThreshold d) krows2
        refine ⟨?_, ?_, ?_, ?_⟩
        · rw [← h, bw, kw, dwidth]
        · rw [← h, bh, kh, dh, gh]
        · rw [← h, bl, kl, hdl]
        · intro row hrow
          rw [← h] at hrow
          have := brows row hrow
          rw [kw, dwidth] at this
          exact this

theorem detectRects_inBounds (canon : Image)
    (hlen : canon.pixels.length = canon.height)
    (hrows : ∀ row ∈ canon.pixels, row.length = canon.width) :
    ∀ r ∈ detectRects canon, rectInBounds canon.width canon.height r = true := by
  intro r hr
  unfold detectRects at hr
  have hr2 := ((List.perm_insertionSort readingOrder _).mem_iff).mp hr
  revert hr2
  apply mergeAll_inBounds
  intro x hx
  have hxc := (List.mem_filter.mp hx).1
  rcases List.mem_filterMap.mp hxc with ⟨b, hb, hbr⟩
  apply bandRect_inBounds canon.width canon.height b _ x hbr
  intro p hp
  have hpenum : p ∈ canon.pixels.enum := bands_mem canon.pixels.enum b hb p hp
  have hget := List.mem_enum_iff_getElem?.mp hpenum
  rcases List.getElem?_eq_some.mp hget with ⟨hlt, hgetel⟩
  constructor
  · rw [← hlen]; exact hlt
  · have hpm : p.2 ∈ canon.pixels := by
      rw [← hgetel]; exact List.getElem_mem hlt
    exact hrows p.2 hpm

theorem detectRects_pairwise (canon : Image) :
    (detectRects canon).Pairwise (fun a b => overlapBeyond a b = false) := by
  unfold detectRects
  have hsym : ∀ {x y : Rect}, overlapBeyond x y = false → overlapBeyond y x = false := by
    intro x y hxy
    rw [overlapBeyond_symm]
    exact hxy
  rw [List.Perm.pairwise_iff hsym (List.perm_insertionSort readingOrder _)]
  exact mergeAll_pairwise _ _ (Nat.le_succ _)

theorem detect_box_mem (docId : Nat) (canon : Image) (r : Region)
    (h : r ∈ detect docId canon) : r.box ∈ detectRects canon := by
  unfold detect at h
  rcases List.mem_map.mp h with ⟨ib, hib, hr⟩
  subst hr
  have h2 : ib.2 ∈ (detectRects canon).enum.map Prod.snd :=
    List.mem_map.mpr ⟨ib, hib, rfl⟩
  rwa [List.enum_map_snd] at h2

theorem detect_pairwise (docId : Nat) (canon : Image) :
    (detect docId canon).Pairwise (fun a b => overlapBeyond a.box b.box = false) := by
  unfold detect
  rw [List.pairwise_map]
  have h := detectRects_pairwise canon
  rw [← List.enum_map_snd (detectRects canon), List.pairwise_map] at h
  exact h

/-- C5: every region in a result lies within the source image bounds, and
after the deduplication/merge pass no two regions overlap beyond the merge
threshold. -/
theorem region_invariants (docId : Nat) (engines : List OCREngine)
    (img : Image) (cfg : Config) :
    (∀ r ∈ (process docId engines img cfg).regions,
      rectInBounds img.width img.height r.box = true) ∧
    (process docId engines img cfg).regions.Pairwise
      (fun a b => overlapBeyond a.box b.box = false) := by
  cases hpre : preprocess img cfg with
  | error e =>
    rw [process_error docId engines img cfg e hpre]
    simp [failedResult]
  | ok canon =>
    rw [process_eq_runOk docId engines img cfg canon hpre]
    obtain ⟨hw, hh, hl, hrows⟩ := preprocess_ok_shape img cfg canon hpre
    constructor
    · intro r hr
      have hbox := detect_box_mem docId canon r hr
      have hb := detectRects_inBounds canon (by rw [hl, hh]) (by
        intro row hrow
        rw [hw]
        exact hrows row hrow) r.box hbox
      rwa [hw, hh] at hb
    · exact detect_pairwise docId canon

/-- C8: with no file selected, `handleUpload` issues no request at all and
the Upload button is disabled; any request it ever issues is the single
POST carrying the selected file. -/
theorem handleUpload_guard (s : UploadState) :
    (s.selectedFile = none → handleUpload s = [] ∧ uploadDisabled s = true) ∧
    (∀ req ∈ handleUpload s, ∃ fi, s.selectedFile = some fi ∧
      req = UploadRequest.postUpload fi ∧
      handleUpload s = [UploadRequest.postUpload fi]) := by
  constructor
  · intro h
    rw [handleUpload, uploadDisabled, h]
    exact ⟨rfl, rfl⟩
  · intro req hreq
    cases hsel : s.selectedFile with
    | none =>
      rw [handleUpload, hsel] at hreq
      simp at hreq
    | some fi =>
      rw [handleUpload, hsel] at hreq
      refine ⟨fi, rfl, ?_, by rw [handleUpload, hsel]⟩
      simpa using hreq

/-- C9: after `fetchDocument` completes, `loading` is false on both the
success and the failure path, and a null document renders the
'Document not found' view rather than the detail view that dereferences
the document. -/
theorem fetchDocument_safe (s : ViewerState)
    (resp : Except String (Option DocumentRecord)) :
    (fetchDocument s resp).loading = false ∧
    ((fetchDocument s resp).document = none →
      renderViewer (fetchDocument s resp) = ViewerView.notFound) := by
  constructor
  · cases resp <;> rfl
  · intro hdoc
    rw [renderViewer]
    have hload : (fetchDocument s resp).loading = false := by cases resp <;> rfl
    rw [hload]
    simp only [Bool.false_eq_true, if_false]
    rw [hdoc]

/-- C10: the dashboard's `documents` state starts as the empty array; a
failed fetch leaves it unchanged (so still empty from the initial state)
while clearing `loading`, and the dashboard then renders the empty grid. -/
theorem fetchDocuments_failure_safe (e : String) (s : DashboardState) :
    initialDashboardState.documents = [] ∧
    fetchDocuments initialDashboardState (.error e) =
      { documents := [], loading := false } ∧
    renderDashboard (fetchDocuments initialDashboardState (.error e)) =
      DashboardView.grid [] ∧
    (fetchDocuments s (.error e)).documents = s.documents := by
  exact ⟨rfl, rfl, rfl, rfl⟩

/-- Witness for C1 at a concrete image, configuration and engine stub. -/
theorem process_deterministic_witness :
    (process 7 [stubEngine] testImg testCfg).fields =
      (process 7 [stubEngine] testImg testCfg).fields :=
  (process_deterministic 7 [stubEngine] testCfg testImg testImg rfl rfl rfl).1

/-- Witness for C2: on the concrete run every region is usable, so the
status is `Success`. -/
theorem overallStatus_aggregation_rule_witness :
    (process 7 [stubEngine] testImg testCfg).overallStatus = Status.Success :=
  (overallStatus_aggregation_rule 7 [stubEngine] testImg testCfg).1.mpr
    ⟨by decide, by decide⟩

/-- Witness for C3: a zero-dimension image yields the `Failed` result with
the structural warning. -/
theorem error_propagation_policy_witness :
    process 9 [] badImg testCfg = failedResult 9 PreprocessError.EmptyImage ∧
    (process 9 [] badImg testCfg).overallStatus = Status.Failed ∧
    structuralWarning PreprocessError.EmptyImage ∈
      (process 9 [] badImg testCfg).warnings :=
  (error_propagation_policy 9 [] badImg testCfg).1 PreprocessError.EmptyImage
    (by rfl)

/-- Witness for C4 at a concrete emitted field of the concrete run. -/
theorem confidence_floor_witness :
    ({ name := "serial_id", rawText := "Serial: AB-1029",
       typedValue := TypedValue.str "AB-1029", confidence := 95,
       sourceRegionId := 0 } : ExtractedField) ∈
        (process 7 [stubEngine] testImg testCfg).fields ∧
    ¬ ({ name := "serial_id", rawText := "Serial: AB-1029",
             typedValue := TypedValue.str "AB-1029", confidence := 95,
             sourceRegionId := 0 } : ExtractedField).confidence <
        testCfg.minFieldConfidence :=
  ⟨by decide, (confidence_floor 7 [stubEngine] testImg testCfg).1 _ (by decide)⟩

/-- Witness for C5 at a concrete region of the concrete run. -/
theorem region_invariants_witness :
    ({ id := 0, box := ⟨0, 0, 4, 1⟩, kind := RegionKind.text,
       sourceImageId := 7 } : Region) ∈
        (process 7 [stubEngine] testImg testCfg).regions ∧
    rectInBounds testImg.width testImg.height
      ({ id := 0, box := ⟨0, 0, 4, 1⟩, kind := RegionKind.text,
         sourceImageId := 7 } : Region).box = true :=
  ⟨by decide, (region_invariants 7 [stubEngine] testImg testCfg).1 _ (by decide)⟩

/-- Witness for C6: the reversed completion schedule `[1, 0]` yields the
same result as the canonical run. -/
theorem fields_reading_order_witness :
    processSched 7 [stubEngine] [1, 0] testImg testCfg =
      process 7 [stubEngine] testImg testCfg :=
  (fields_reading_order 7 [stubEngine] testImg testCfg [1, 0] (by decide)).1

/-- Witness for C7 on a one-engine chain whose first answer is accepted in
a single attempt. -/
theorem fallback_chain_bound_witness :
    runChain testCfg (crop testImg ⟨0, 0, 4, 1⟩) [stubEngine] =
      (OcrOutcome.accepted [{ text := "Serial: AB-1029", confidence := 95,
                              boundingBox := ⟨0, 0, 1, 1⟩, regionId := 0 }], 1) :=
  (fallback_chain_bound testCfg (crop testImg ⟨0, 0, 4, 1⟩) [stubEngine]).2
    stubEngine [] _ rfl rfl (by decide)

/-- Witness for C8 at the initial (no file selected) state. -/
theorem handleUpload_guard_witness :
    handleUpload { selectedFile := none } = [] ∧
    uploadDisabled { selectedFile := none } = true :=
  (handleUpload_guard ⟨none⟩).1 rfl

/-- Witness for C9: a failed fetch from the initial state clears `loading`
and renders the not-found view. -/
theorem fetchDocument_safe_witness :
    (fetchDocument initialViewerState (.error "network down")).loading = false ∧
    renderViewer (fetchDocument initialViewerState (.error "network down")) =
      ViewerView.notFound :=
  ⟨(fetchDocument_safe initialViewerState (.error "network down")).1,
   (fetchDocument_safe initialViewerState (.error "network down")).2 rfl⟩
